import Mathlib

set_option autoImplicit false

/-!
Verification of the VQAv2 dataset reader
(`allennlp_models/vision/dataset_readers/vqav2.py`) and of the beam-search
property exercised by `tests/generation/models/simple_seq2seq_test.py`.

The Python code is shallowly embedded: dictionaries become association
lists that keep insertion order (as Python dicts and `Counter`s do),
fallible code returns `Option`/`Except`, and the floating-point score
`min(1.0, count / 3)` is embedded over `ℚ` (all quantities of interest,
`0`, `1/3`, `2/3`, `1`, are exact in both arithmetics).

External framework helpers that the reader merely calls
(`utils.preprocess_answer`, the tokenizer, `utils.get_data_slice`, the
image featurization pipeline) are abstracted as function parameters.
-/

namespace VQA

/-- Embedding of `get_score` (vqav2.py line 39-40):
`return min(1.0, count / 3)`. -/
def get_score (count : ℕ) : ℚ := min 1 ((count : ℚ) / 3)

/-- C1: get_score(count) = min(1.0, count/3); it is 0 at 0, non-decreasing,
and equals 1.0 exactly when count ≥ 3. -/
theorem get_score_spec :
    (∀ count : ℕ, get_score count = min 1 ((count : ℚ) / 3)) ∧
    get_score 0 = 0 ∧
    (∀ a b : ℕ, a ≤ b → get_score a ≤ get_score b) ∧
    (∀ count : ℕ, get_score count = 1 ↔ 3 ≤ count) := by
  refine ⟨fun _ => rfl, by norm_num [get_score], ?_, ?_⟩
  · intro a b hab
    unfold get_score
    apply min_le_min le_rfl
    have : (a : ℚ) ≤ (b : ℚ) := by exact_mod_cast hab
    linarith
  · intro count
    unfold get_score
    constructor
    · intro h
      by_contra hlt
      push_neg at hlt
      interval_cases count <;> norm_num at h
    · intro h
      have h3 : (3 : ℚ) ≤ (count : ℚ) := by exact_mod_cast h
      have : (1 : ℚ) ≤ (count : ℚ) / 3 := by linarith
      simp [min_eq_left this]

/-! ## `text_to_instance` (vqav2.py lines 280-327)

The tokenizer is abstracted as `tok : String → List String`; an already
processed image is abstracted as a value of an arbitrary type `Img`
(in the code it is a tuple of tensors, `features, coords, _, _`).
`answer_vocab` is the reader attribute set in `__init__` (lines 126-136):
`None`, or the frozenset of preprocessed vocabulary answers; here it is
an `Option (List String)` queried by membership.  An answer-count mapping
is a `List (String × ℕ)` in dict iteration order. -/

/-- The fields of the returned `Instance`, as built by `text_to_instance`:
the tokenized question, the optional image fields, and the optional
`labels` / `label_weights` fields. -/
structure VQAInstance (Img : Type) where
  question : List String
  image : Option Img
  labels : Option (List String)
  label_weights : Option (List ℚ)
  deriving Repr, DecidableEq

/-- The vocabulary filter on line 317:
`self.answer_vocab is None or answer in self.answer_vocab`. -/
def answerPasses (answer_vocab : Option (List String)) (answer : String) : Bool :=
  match answer_vocab with
  | none => true
  | some vocab => vocab.contains answer

/-- The loop over `answer_counts.items()` on lines 316-319, building the
parallel lists `answer_fields` and `weights`. -/
def collectAnswers (answer_vocab : Option (List String)) :
    List (String × ℕ) → List String × List ℚ
  | [] => ([], [])
  | (answer, count) :: rest =>
    let tail := collectAnswers answer_vocab rest
    if answerPasses answer_vocab answer then
      (answer :: tail.1, get_score count :: tail.2)
    else
      tail

/-- Embedding of `text_to_instance` (lines 280-327).  Tokenizes the
question, attaches the image fields when an image is given, and when
`answer_counts` is not `None` filters the answers through the
vocabulary, returning `none` when no answer survives (lines 321-322). -/
def text_to_instance {Img : Type} (tok : String → List String)
    (answer_vocab : Option (List String)) (question : String)
    (image : Option Img) (answer_counts : Option (List (String × ℕ))) :
    Option (VQAInstance Img) :=
  let question_field := tok question
  match answer_counts with
  | none => some ⟨question_field, image, none, none⟩
  | some counts =>
    let collected := collectAnswers answer_vocab counts
    if collected.1.length ≤ 0 then none
    else some ⟨question_field, image, some collected.1, some collected.2⟩

theorem collectAnswers_fst (answer_vocab : Option (List String))
    (counts : List (String × ℕ)) :
    (collectAnswers answer_vocab counts).1 =
      (counts.filter (fun p => answerPasses answer_vocab p.1)).map Prod.fst := by
  induction counts with
  | nil => rfl
  | cons p rest ih =>
    obtain ⟨a, c⟩ := p
    by_cases h : answerPasses answer_vocab a <;>
      simp [collectAnswers, List.filter, h, ih]

theorem collectAnswers_snd (answer_vocab : Option (List String))
    (counts : List (String × ℕ)) :
    (collectAnswers answer_vocab counts).2 =
      (counts.filter (fun p => answerPasses answer_vocab p.1)).map
        (fun p => get_score p.2) := by
  induction counts with
  | nil => rfl
  | cons p rest ih =>
    obtain ⟨a, c⟩ := p
    by_cases h : answerPasses answer_vocab a <;>
      simp [collectAnswers, List.filter, h, ih]

/-- C2: for non-None answer counts, `text_to_instance` returns `None`
iff no answer key passes the vocabulary filter; with no `answer_vocab`
every answer passes, so `None` comes back iff the mapping is empty. -/
theorem text_to_instance_none_iff {Img : Type} (tok : String → List String)
    (answer_vocab : Option (List String)) (question : String)
    (image : Option Img) (counts : List (String × ℕ)) :
    (text_to_instance tok answer_vocab question image (some counts) = none ↔
      ∀ p ∈ counts, answerPasses answer_vocab p.1 = false) ∧
    (answer_vocab = none →
      (text_to_instance tok answer_vocab question image (some counts) = none ↔
        counts = [])) := by
  have key : text_to_instance tok answer_vocab question image (some counts) = none ↔
      counts.filter (fun p => answerPasses answer_vocab p.1) = [] := by
    unfold text_to_instance
    simp only [collectAnswers_fst]
    by_cases hf : counts.filter (fun p => answerPasses answer_vocab p.1) = []
    · simp [hf]
    · simp [hf, List.length_eq_zero, List.map_eq_nil_iff]
  constructor
  · rw [key, List.filter_eq_nil_iff]
    simp
  · intro hnone
    subst hnone
    rw [key, List.filter_eq_nil_iff]
    constructor
    · intro h
      rcases counts with _ | ⟨p, rest⟩
      · rfl
      · exact absurd (h p (by simp)) (by simp [answerPasses])
    · intro h
      subst h
      simp

/-- C3: when an instance is returned for non-None answer counts, `labels`
lists exactly the passing answers in mapping order and `label_weights`
has the same length with the i-th weight `get_score` of the i-th kept
count. -/
theorem text_to_instance_labels_weights {Img : Type} (tok : String → List String)
    (answer_vocab : Option (List String)) (question : String)
    (image : Option Img) (counts : List (String × ℕ))
    (inst : VQAInstance Img)
    (h : text_to_instance tok answer_vocab question image (some counts) = some inst) :
    let kept := counts.filter (fun p => answerPasses answer_vocab p.1)
    inst.labels = some (kept.map Prod.fst) ∧
    inst.label_weights = some (kept.map (fun p => get_score p.2)) ∧
    (kept.map (fun p => get_score p.2)).length = (kept.map Prod.fst).length ∧
    ∀ i : ℕ, (kept.map (fun p => get_score p.2))[i]? =
      (kept[i]?).map (fun p => get_score p.2) := by
  intro kept
  unfold text_to_instance at h
  simp only [collectAnswers_fst, collectAnswers_snd] at h
  by_cases hf : counts.filter (fun p => answerPasses answer_vocab p.1) = []
  · rw [hf] at h
    simp at h
  · have hlen :
        ¬ ((counts.filter (fun p => answerPasses answer_vocab p.1)).map Prod.fst).length ≤ 0 := by
      simp [List.length_eq_zero, List.map_eq_nil_iff, hf]
    rw [if_neg hlen] at h
    injection h with h
    subst h
    exact ⟨rfl, rfl, by simp, fun i => by simp⟩

/-- Witness for C3 at a concrete answer-count mapping. -/
theorem text_to_instance_labels_weights_witness :
    (text_to_instance (fun _ => []) none ("q") (none : Option Unit)
        (some [("yes", 2)]) =
      some ⟨[], none, some ["yes"], some [get_score 2]⟩) ∧
    (let kept := [("yes", 2)].filter (fun p => answerPasses none p.1)
     (⟨[], none, some ["yes"], some [get_score 2]⟩ :
        VQAInstance Unit).labels = some (kept.map Prod.fst) ∧
      (⟨[], none, some ["yes"], some [get_score 2]⟩ :
        VQAInstance Unit).label_weights =
          some (kept.map (fun p => get_score p.2)) ∧
      (kept.map (fun p => get_score p.2)).length =
        (kept.map Prod.fst).length ∧
      ∀ i : ℕ, (kept.map (fun p => get_score p.2))[i]? =
        (kept[i]?).map (fun p => get_score p.2)) :=
  ⟨by rfl,
    text_to_instance_labels_weights (fun _ => []) none ("q") none
      [("yes", 2)] ⟨[], none, some ["yes"], some [get_score 2]⟩ (by rfl)⟩

/-! ## `_get_answers_by_question_id` (vqav2.py lines 333-363)

An annotation record carries a question id, the list of the annotators'
answers (`a["answers"]`, one `answer_dict["answer"]` string each) and the
special `multiple_choice_answer`.  `utils.preprocess_answer` lives in a
module outside this repository's sources and is abstracted as
`pre : String → String`.  Python `dict` / `Counter` objects become
association lists that keep insertion order; inserting an existing key
updates it in place. -/

structure Annotation where
  question_id : ℤ
  answers : List String
  multiple_choice_answer : String
  deriving Repr, DecidableEq

/-- Python dict insertion: update in place when the key exists, append
otherwise. -/
def dictInsert {α β : Type} [DecidableEq α] :
    List (α × β) → α → β → List (α × β)
  | [], key, val => [(key, val)]
  | (k, v) :: rest, key, val =>
    if k = key then (k, val) :: rest
    else (k, v) :: dictInsert rest key val

/-- Python dict lookup (`m.get(key)` / `m[key]`). -/
def lookupD {α β : Type} [DecidableEq α] : List (α × β) → α → Option β
  | [], _ => none
  | (k, v) :: rest, key => if k = key then some v else lookupD rest key

/-- The `Counter` increment `answer_counts[key] += 1` (vqav2.py line 356). -/
def incr : List (String × ℕ) → String → List (String × ℕ)
  | [], key => [(key, 1)]
  | (k, v) :: rest, key =>
    if k = key then (k, v + 1) :: rest
    else (k, v) :: incr rest key

/-- The count stored for a key in a counter (0 when absent). -/
def countOf : List (String × ℕ) → String → ℕ
  | [], _ => 0
  | (k, v) :: rest, key => if k = key then v else countOf rest key

/-- Sum of all stored counts. -/
def sumCounts (m : List (String × ℕ)) : ℕ := (m.map Prod.snd).sum

/-- The per-record answer-count dictionary built on vqav2.py lines
353-358: with `multiple_answers_per_question` the `Counter` over the
preprocessed annotator answers, otherwise the singleton counter for the
preprocessed `multiple_choice_answer`. -/
def answer_counts_of (pre : String → String)
    (multiple_answers_per_question : Bool) (a : Annotation) :
    List (String × ℕ) :=
  if multiple_answers_per_question then
    a.answers.foldl (fun m answer => incr m (pre answer)) []
  else
    [(pre a.multiple_choice_answer, 1)]

/-- The whole loop on lines 351-359:
`answers_by_question_id[str(qid)] = answer_counts` for each record. -/
def answers_by_question_id_fresh (pre : String → String)
    (multiple_answers_per_question : Bool) (annotations : List Annotation) :
    List (String × List (String × ℕ)) :=
  annotations.foldl
    (fun m a =>
      dictInsert m (toString a.question_id)
        (answer_counts_of pre multiple_answers_per_question a))
    []

theorem countOf_incr (m : List (String × ℕ)) (key k : String) :
    countOf (incr m key) k = countOf m k + (if key = k then 1 else 0) := by
  induction m with
  | nil =>
    by_cases h : key = k <;> simp [incr, countOf, h]
  | cons p rest ih =>
    obtain ⟨k0, v0⟩ := p
    by_cases h0 : k0 = key
    · subst h0
      by_cases h : k0 = k <;> simp [incr, countOf, h]
    · by_cases h : k0 = k
      · subst h
        simp only [incr, if_neg h0, countOf, if_pos rfl]
        have : ¬ key = k0 := fun hk => h0 hk.symm
        simp [this]
      · simp [incr, countOf, h0, h, ih]

theorem sumCounts_incr (m : List (String × ℕ)) (key : String) :
    sumCounts (incr m key) = sumCounts m + 1 := by
  induction m with
  | nil => simp [incr, sumCounts]
  | cons p rest ih =>
    obtain ⟨k0, v0⟩ := p
    by_cases h0 : k0 = key
    · simp [incr, h0, sumCounts]
      omega
    · simp [incr, h0, sumCounts] at ih ⊢
      omega

theorem countOf_fold (pre : String → String) (l : List String)
    (m0 : List (String × ℕ)) (k : String) :
    countOf (l.foldl (fun m answer => incr m (pre answer)) m0) k =
      countOf m0 k + l.countP (fun answer => pre answer = k) := by
  induction l generalizing m0 with
  | nil => simp
  | cons a rest ih =>
    simp only [List.foldl_cons, ih, countOf_incr, List.countP_cons]
    by_cases h : pre a = k
    · simp [h]
      omega
    · simp [h]

theorem sumCounts_fold (pre : String → String) (l : List String)
    (m0 : List (String × ℕ)) :
    sumCounts (l.foldl (fun m answer => incr m (pre answer)) m0) =
      sumCounts m0 + l.length := by
  induction l generalizing m0 with
  | nil => simp
  | cons a rest ih =>
    simp only [List.foldl_cons, ih, sumCounts_incr, List.length_cons]
    omega

/-- C5: with `multiple_answers_per_question = True` the record's counter
maps each preprocessed answer string to the number of annotator answers
preprocessing to it, and the counts sum to the number of answer entries;
with `False` it is exactly the singleton
`{preprocess_answer(multiple_choice_answer): 1}`. -/
theorem answer_counts_of_spec (pre : String → String) (a : Annotation) :
    (∀ k : String, countOf (answer_counts_of pre true a) k =
      a.answers.countP (fun answer => pre answer = k)) ∧
    sumCounts (answer_counts_of pre true a) = a.answers.length ∧
    answer_counts_of pre false a = [(pre a.multiple_choice_answer, 1)] := by
  refine ⟨fun k => ?_, ?_, rfl⟩
  · simp [answer_counts_of, countOf_fold, countOf]
  · have h := sumCounts_fold pre a.answers []
    simpa [answer_counts_of, sumCounts] using h

/-! ## The local disk cache for answer counts (vqav2.py lines 335-362)

On a cache miss the computed mapping is written with `json.dump`; on a
hit it is read back with `json.load`.  JSON documents are embedded as an
AST; the mapping is serialized as an object of objects with integer
leaves (question ids as string keys, preprocessed answers to counts). -/

inductive Json where
  | num : ℤ → Json
  | str : String → Json
  | obj : List (String × Json) → Json

/-- Serialization of one answer counter. -/
def encodeCounts (m : List (String × ℕ)) : Json :=
  .obj (m.map (fun p => (p.1, .num (p.2 : ℤ))))

/-- Serialization of the whole per-question mapping (what `json.dump`
writes on line 362). -/
def encodeAnswers (m : List (String × List (String × ℕ))) : Json :=
  .obj (m.map (fun p => (p.1, encodeCounts p.2)))

def decodeNat : Json → Option ℕ
  | .num n => if n < 0 then none else some n.toNat
  | _ => none

/-- Parse a JSON object whose values parse with `dec`, preserving key
order. -/
def decodeEntries {α : Type} (dec : Json → Option α) :
    List (String × Json) → Option (List (String × α))
  | [] => some []
  | (k, j) :: rest =>
    match dec j with
    | none => none
    | some v =>
      match decodeEntries dec rest with
      | none => none
      | some tail => some ((k, v) :: tail)

def decodeCounts : Json → Option (List (String × ℕ))
  | .obj kvs => decodeEntries decodeNat kvs
  | _ => none

/-- What `json.load` recovers on line 346. -/
def decodeAnswers : Json → Option (List (String × List (String × ℕ)))
  | .obj kvs => decodeEntries decodeCounts kvs
  | _ => none

/-- Embedding of `_get_answers_by_question_id` for a split that has
annotations: read the mapping back from the cache when it is present
(lines 340-346), otherwise compute it fresh and write it (lines 347-362).
Returns the mapping together with the cache content after the call. -/
def get_answers_by_question_id (pre : String → String)
    (multiple_answers_per_question : Bool) (annotations : List Annotation)
    (cache : Option Json) :
    Option (List (String × List (String × ℕ))) × Json :=
  match cache with
  | some j => (decodeAnswers j, j)
  | none =>
    let fresh :=
      answers_by_question_id_fresh pre multiple_answers_per_question annotations
    (some fresh, encodeAnswers fresh)

theorem decodeEntries_encode {α : Type} (dec : Json → Option α)
    (enc : α → Json) (m : List (String × α))
    (h : ∀ p ∈ m, dec (enc p.2) = some p.2) :
    decodeEntries dec (m.map (fun p => (p.1, enc p.2))) = some m := by
  induction m with
  | nil => rfl
  | cons p rest ih =>
    have hp := h p (by simp)
    have hr := ih (fun q hq => h q (by simp [hq]))
    simp [decodeEntries, hp, hr]

theorem decodeCounts_encodeCounts (m : List (String × ℕ)) :
    decodeCounts (encodeCounts m) = some m := by
  have h : decodeCounts (encodeCounts m) =
      decodeEntries decodeNat (m.map (fun p => (p.1, Json.num (p.2 : ℤ)))) := rfl
  rw [h]
  exact decodeEntries_encode decodeNat (fun c => Json.num (c : ℤ)) m
    (fun p _ => by simp [decodeNat])

theorem decodeAnswers_encodeAnswers (m : List (String × List (String × ℕ))) :
    decodeAnswers (encodeAnswers m) = some m := by
  have h : decodeAnswers (encodeAnswers m) =
      decodeEntries decodeCounts (m.map (fun p => (p.1, encodeCounts p.2))) := rfl
  rw [h]
  exact decodeEntries_encode decodeCounts encodeCounts m
    (fun p _ => decodeCounts_encodeCounts p.2)

/-- C4: a first call with an empty cache computes the mapping fresh and
writes its serialization; a later call with the same settings reads the
cache back and obtains the very same mapping: the JSON round trip is the
identity on the computed mapping. -/
theorem get_answers_cache_consistent (pre : String → String)
    (multiple_answers_per_question : Bool) (annotations : List Annotation) :
    let first := get_answers_by_question_id pre multiple_answers_per_question
      annotations none
    first.1 = some (answers_by_question_id_fresh pre
      multiple_answers_per_question annotations) ∧
    get_answers_by_question_id pre multiple_answers_per_question annotations
      (some first.2) = (first.1, first.2) := by
  refine ⟨rfl, ?_⟩
  simp [get_answers_by_question_id, decodeAnswers_encodeAnswers]

/-! ## The instance loop of `_read` (vqav2.py lines 224-271)

A question record carries `question_id`, `image_id` and the question
text.  After `__init__`, `self.images` maps integer image ids to file
paths; featurization (`_process_image_paths`) is abstracted as
`featurize : String → Img` applied path by path. -/

structure QuestionRec where
  question_id : ℤ
  image_id : ℕ
  question : String
  deriving Repr, DecidableEq

/-- The list comprehension on lines 243-245:
`[self.images[int(q["image_id"])] for q in question_dicts]`, failing with
the first missing image id (`KeyError`, lines 246-256). -/
def imagePaths (images : List (ℕ × String)) :
    List QuestionRec → Except ℕ (List String)
  | [] => .ok []
  | q :: rest =>
    match lookupD images q.image_id with
    | none => .error q.image_id
    | some path => (imagePaths images rest).map (fun ps => path :: ps)

/-- The final loop on lines 264-271: zip questions with their processed
images, look the answers up under `str(question_id)` and yield the
instances `text_to_instance` produces. -/
def instancesOf {Img : Type} (tok : String → List String)
    (answer_vocab : Option (List String))
    (answers_by_question_id : List (String × List (String × ℕ)))
    (pairs : List (QuestionRec × Option Img)) : List (VQAInstance Img) :=
  pairs.filterMap (fun qi =>
    text_to_instance tok answer_vocab qi.1.question qi.2
      (lookupD answers_by_question_id (toString qi.1.question_id)))

/-- Embedding of the instance-producing part of `_read` (lines 234-271):
when `produce_featurized_images` is set the image paths are gathered
(raising on a missing id) and featurized, otherwise every image is
`None`; then each question is paired with its image and its answer
counts. -/
def read_questions {Img : Type} (tok : String → List String)
    (answer_vocab : Option (List String)) (produce_featurized_images : Bool)
    (featurize : String → Img) (images : List (ℕ × String))
    (answers_by_question_id : List (String × List (String × ℕ)))
    (question_dicts : List QuestionRec) :
    Except ℕ (List (VQAInstance Img)) :=
  if produce_featurized_images then
    match imagePaths images question_dicts with
    | .error missing_id => .error missing_id
    | .ok image_paths =>
      .ok (instancesOf tok answer_vocab answers_by_question_id
        (question_dicts.zip (image_paths.map (fun p => some (featurize p)))))
  else
    .ok (instancesOf tok answer_vocab answers_by_question_id
      (question_dicts.map (fun q => (q, none))))

theorem imagePaths_ok_length (images : List (ℕ × String))
    (qs : List QuestionRec) (paths : List String)
    (h : imagePaths images qs = .ok paths) : paths.length = qs.length := by
  induction qs generalizing paths with
  | nil =>
    simp only [imagePaths] at h
    injection h with h
    subst h
    rfl
  | cons q rest ih =>
    simp only [imagePaths] at h
    cases hl : lookupD images q.image_id with
    | none => rw [hl] at h; exact absurd h (by simp)
    | some path =>
      rw [hl] at h
      cases hr : imagePaths images rest with
      | error e => rw [hr] at h; exact absurd h (by simp [Except.map])
      | ok ps =>
        rw [hr] at h
        simp only [Except.map] at h
        injection h with h
        subst h
        simp [ih ps hr]

theorem imagePaths_ok_get (images : List (ℕ × String))
    (qs : List QuestionRec) (paths : List String)
    (h : imagePaths images qs = .ok paths) :
    ∀ i : ℕ, i < qs.length →
      ∃ q path, qs[i]? = some q ∧ paths[i]? = some path ∧
        lookupD images q.image_id = some path := by
  induction qs generalizing paths with
  | nil => intro i hi; simp at hi
  | cons q rest ih =>
    simp only [imagePaths] at h
    cases hl : lookupD images q.image_id with
    | none => rw [hl] at h; exact absurd h (by simp)
    | some path =>
      rw [hl] at h
      cases hr : imagePaths images rest with
      | error e => rw [hr] at h; exact absurd h (by simp [Except.map])
      | ok ps =>
        rw [hr] at h
        simp only [Except.map] at h
        injection h with h
        subst h
        intro i hi
        cases i with
        | zero => exact ⟨q, path, by simp, by simp, hl⟩
        | succ j =>
          have hj : j < rest.length := by
            simpa [Nat.succ_lt_succ_iff] using hi
          obtain ⟨q', path', hq', hp', hl'⟩ := ih ps hr j hj
          exact ⟨q', path', by simpa using hq', by simpa using hp', hl'⟩

theorem imagePaths_error_of_missing (images : List (ℕ × String))
    (qs : List QuestionRec)
    (h : ∃ q ∈ qs, lookupD images q.image_id = none) :
    ∃ missing_id, imagePaths images qs = .error missing_id ∧
      ∃ q ∈ qs, q.image_id = missing_id ∧ lookupD images missing_id = none := by
  induction qs with
  | nil => simp at h
  | cons q rest ih =>
    by_cases hq : lookupD images q.image_id = none
    · exact ⟨q.image_id, by simp [imagePaths, hq], q, by simp, rfl, hq⟩
    · obtain ⟨path, hpath⟩ := Option.ne_none_iff_exists'.mp hq
      obtain ⟨q', hq', hrest⟩ := h
      rcases List.mem_cons.mp hq' with rfl | hmem
      · exact absurd hrest hq
      · obtain ⟨mid, hm, q'', hq'', hid, hnone⟩ := ih ⟨q', hmem, hrest⟩
        refine ⟨mid, ?_, q'', List.mem_cons_of_mem _ hq'', hid, hnone⟩
        simp [imagePaths, hpath, hm, Except.map]

/-- C6: every instance `_read` yields pairs a question with the answer
counts looked up under `str(question_id)` (None when absent) and, when
featurization is on, with the featurized image found under the
question's `image_id`; and if some question's `image_id` has no image,
`_read` raises `KeyError` (an `Except.error` carrying a genuinely
missing id) instead of yielding anything. -/
theorem read_questions_spec {Img : Type} (tok : String → List String)
    (answer_vocab : Option (List String)) (produce_featurized_images : Bool)
    (featurize : String → Img) (images : List (ℕ × String))
    (answers_by_question_id : List (String × List (String × ℕ)))
    (question_dicts : List QuestionRec) :
    (∀ l, read_questions tok answer_vocab produce_featurized_images featurize
        images answers_by_question_id question_dicts = .ok l →
      ∀ inst ∈ l, ∃ q ∈ question_dicts,
        text_to_instance tok answer_vocab q.question
          (if produce_featurized_images then
            (lookupD images q.image_id).map featurize
          else none)
          (lookupD answers_by_question_id (toString q.question_id)) =
          some inst) ∧
    (produce_featurized_images = true →
      (∃ q ∈ question_dicts, lookupD images q.image_id = none) →
      ∃ missing_id,
        read_questions tok answer_vocab produce_featurized_images featurize
          images answers_by_question_id question_dicts = .error missing_id ∧
        lookupD images missing_id = none) := by
  constructor
  · intro l hl inst hinst
    by_cases hprod : produce_featurized_images
    · rw [read_questions, if_pos hprod] at hl
      cases hpaths : imagePaths images question_dicts with
      | error e => rw [hpaths] at hl; exact absurd hl (by simp)
      | ok paths =>
        rw [hpaths] at hl
        injection hl with hl
        subst hl
        obtain ⟨qi, hqi, hsome⟩ := List.mem_filterMap.mp hinst
        obtain ⟨i, hilt, hzip⟩ := List.getElem_of_mem hqi
        have hlen := imagePaths_ok_length images question_dicts paths hpaths
        have hiq : i < question_dicts.length := by
          simp only [List.length_zip, List.length_map, hlen] at hilt
          omega
        have hip : i < paths.length := by omega
        obtain ⟨q, path, hq, hp, hlook⟩ :=
          imagePaths_ok_get images question_dicts paths hpaths i hiq
        rw [List.getElem_zip] at hzip
        have hq' : question_dicts[i] = q := by
          rw [List.getElem?_eq_getElem hiq] at hq
          injection hq
        have hpath' : paths[i] = path := by
          rw [List.getElem?_eq_getElem hip] at hp
          injection hp
        have hques : qi.1 = q := by rw [← hzip]; exact hq'
        have himg : qi.2 = some (featurize path) := by
          rw [← hzip]
          simp [List.getElem_map, hpath']
        refine ⟨q, by rw [← hq']; exact List.getElem_mem hiq, ?_⟩
        rw [if_pos hprod, hlook]
        simp only [Option.map_some']
        rw [← hques, ← himg]
        exact hsome
    · rw [read_questions, if_neg hprod] at hl
      injection hl with hl
      subst hl
      obtain ⟨qi, hqi, hsome⟩ := List.mem_filterMap.mp hinst
      obtain ⟨q, hq, hpair⟩ := List.mem_map.mp hqi
      refine ⟨q, hq, ?_⟩
      rw [if_neg hprod]
      rw [← hpair] at hsome
      simpa using hsome
  · intro hprod hmissing
    obtain ⟨mid, hm, _, _, _, hnone⟩ :=
      imagePaths_error_of_missing images question_dicts hmissing
    exact ⟨mid, by rw [read_questions, if_pos (by simp [hprod]), hm], hnone⟩

/-! ## Split resolution (vqav2.py lines 157-231)

`_read` first recurses over a list of split names (lines 160-165), then
strips slicing syntax with `utils.get_data_slice` (line 168, a helper
outside these sources, abstracted as `gds` returning the slice as a list
transformer together with the stripped name), resolves the name in the
`splits` table (lines 179-222, `ValueError` on an unknown name), loads
and slices the questions file and runs the instance loop.  Loading a
questions file and computing a split's answers are abstracted as
functions of the resolved URLs; exceptions become `Except.error`. -/

structure SplitUrls where
  annotations : Option String
  questions : String
  deriving Repr, DecidableEq

inductive ReadError where
  | valueError : String → ReadError
  | keyError : ℕ → ReadError
  deriving Repr, DecidableEq

def aws_base : String := "https://s3.amazonaws.com/cvmlp/vqa/"

def mscoco_base : String := aws_base ++ "mscoco/vqa/"

def scene_base : String := aws_base ++ "abstract_v002/vqa/"

/-- The `splits` table of `_read` (lines 179-216), in source order. -/
def splits : List (String × SplitUrls) :=
  [ ("balanced_real_train",
      ⟨some (mscoco_base ++ "v2_Annotations_Train_mscoco.zip!v2_mscoco_train2014_annotations.json"),
        mscoco_base ++ "v2_Questions_Train_mscoco.zip!v2_OpenEnded_mscoco_train2014_questions.json"⟩),
    ("balanced_real_val",
      ⟨some (mscoco_base ++ "v2_Annotations_Val_mscoco.zip!v2_mscoco_val2014_annotations.json"),
        mscoco_base ++ "v2_Questions_Val_mscoco.zip!v2_OpenEnded_mscoco_val2014_questions.json"⟩),
    ("balanced_real_test",
      ⟨none,
        mscoco_base ++ "v2_Questions_Test_mscoco.zip!v2_OpenEnded_mscoco_test2015_questions.json"⟩),
    ("balanced_bas_train",
      ⟨some (scene_base ++ "Annotations_Binary_Train2017_abstract_v002.zip!abstract_v002_train2017_annotations.json"),
        scene_base ++ "Questions_Binary_Train2017_abstract_v002.zip!OpenEnded_abstract_v002_train2017_questions.json"⟩),
    ("balanced_bas_val",
      ⟨some (scene_base ++ "Annotations_Binary_Val2017_abstract_v002.zip!abstract_v002_val2017_annotations.json"),
        scene_base ++ "Questions_Binary_Val2017_abstract_v002.zip!OpenEnded_abstract_v002_val2017_questions.json"⟩),
    ("abstract_scenes_train",
      ⟨some (scene_base ++ "Annotations_Train_abstract_v002.zip!abstract_v002_train2015_annotations.json"),
        scene_base ++ "Questions_Train_abstract_v002.zip!OpenEnded_abstract_v002_train2015_questions.json"⟩),
    ("abstract_scenes_val",
      ⟨some (scene_base ++ "Annotations_Val_abstract_v002.zip!abstract_v002_val2015_annotations.json"),
        scene_base ++ "Questions_Val_abstract_v002.zip!OpenEnded_abstract_v002_val2015_questions.json"⟩),
    ("abstract_scenes_test",
      ⟨none,
        scene_base ++ "Questions_Test_abstract_v002.zip!OpenEnded_abstract_v002_test2015_questions.json"⟩),
    ("unittest",
      ⟨some ("test_fixtures/vision/vqav2/annotations.json"),
        "test_fixtures/vision/vqav2/questions.json"⟩) ]

/-- The nine recognized split names, in table order. -/
def splitNames : List String :=
  [ "balanced_real_train", "balanced_real_val", "balanced_real_test",
    "balanced_bas_train", "balanced_bas_val",
    "abstract_scenes_train", "abstract_scenes_val", "abstract_scenes_test",
    "unittest" ]

/-- Embedding of `_read` on a single split name (lines 167-271): strip
the slicing syntax, resolve the split (`ValueError` on lines 219-222),
load and slice the questions, compute the answers and run the instance
loop. -/
def read_split {Img : Type} (tok : String → List String)
    (answer_vocab : Option (List String))
    (gds : String → (List QuestionRec → List QuestionRec) × String)
    (questions_of : String → List QuestionRec)
    (answers_of : SplitUrls → List (String × List (String × ℕ)))
    (produce_featurized_images : Bool) (featurize : String → Img)
    (images : List (ℕ × String)) (split_name : String) :
    Except ReadError (List (VQAInstance Img)) :=
  let sliced := gds split_name
  match lookupD splits sliced.2 with
  | none => .error (.valueError ("Unrecognized split: " ++ sliced.2 ++ "."))
  | some split =>
    match read_questions tok answer_vocab produce_featurized_images
        featurize images (answers_of split)
        (sliced.1 (questions_of split.questions)) with
    | .error missing_id => .error (.keyError missing_id)
    | .ok l => .ok l

/-- Embedding of `_read` on a list of split names (lines 162-165):
`for split_name in list: yield from self._read(split_name)`. -/
def read_split_list {Img : Type} (tok : String → List String)
    (answer_vocab : Option (List String))
    (gds : String → (List QuestionRec → List QuestionRec) × String)
    (questions_of : String → List QuestionRec)
    (answers_of : SplitUrls → List (String × List (String × ℕ)))
    (produce_featurized_images : Bool) (featurize : String → Img)
    (images : List (ℕ × String)) :
    List String → Except ReadError (List (VQAInstance Img))
  | [] => .ok []
  | s :: rest =>
    match read_split tok answer_vocab gds questions_of answers_of
        produce_featurized_images featurize images s with
    | .error e => .error e
    | .ok a =>
      match read_split_list tok answer_vocab gds questions_of answers_of
          produce_featurized_images featurize images rest with
      | .error e => .error e
      | .ok b => .ok (a ++ b)

/-- Embedding of `_read` on its `Union[str, List[str]]` argument (lines 158-165). -/
def read {Img : Type} (tok : String → List String)
    (answer_vocab : Option (List String))
    (gds : String → (List QuestionRec → List QuestionRec) × String)
    (questions_of : String → List QuestionRec)
    (answers_of : SplitUrls → List (String × List (String × ℕ)))
    (produce_featurized_images : Bool) (featurize : String → Img)
    (images : List (ℕ × String)) :
    String ⊕ List String → Except ReadError (List (VQAInstance Img))
  | .inl s =>
    read_split tok answer_vocab gds questions_of answers_of
      produce_featurized_images featurize images s
  | .inr l =>
    read_split_list tok answer_vocab gds questions_of answers_of
      produce_featurized_images featurize images l

theorem lookupD_eq_none_of_not_mem {α β : Type} [DecidableEq α]
    (m : List (α × β)) (k : α) (h : k ∉ m.map Prod.fst) :
    lookupD m k = none := by
  induction m with
  | nil => rfl
  | cons p rest ih =>
    obtain ⟨k0, v0⟩ := p
    simp only [List.map_cons, List.mem_cons, not_or] at h
    have hne : ¬ k0 = k := fun he => h.1 he.symm
    simp [lookupD, hne, ih h.2]

/-- C8: when the split name left after stripping any slicing syntax is
none of the nine recognized names, `_read` raises `ValueError` and
yields no instance. -/
theorem read_split_unrecognized {Img : Type} (tok : String → List String)
    (answer_vocab : Option (List String))
    (gds : String → (List QuestionRec → List QuestionRec) × String)
    (questions_of : String → List QuestionRec)
    (answers_of : SplitUrls → List (String × List (String × ℕ)))
    (produce_featurized_images : Bool) (featurize : String → Img)
    (images : List (ℕ × String)) (split_name : String)
    (h : (gds split_name).2 ∉ splitNames) :
    read tok answer_vocab gds questions_of answers_of
        produce_featurized_images featurize images (.inl split_name) =
      .error (.valueError ("Unrecognized split: " ++ (gds split_name).2 ++ ".")) := by
  have hkeys : splits.map Prod.fst = splitNames := by rfl
  have hnone : lookupD splits (gds split_name).2 = none := by
    apply lookupD_eq_none_of_not_mem
    rw [hkeys]
    exact h
  simp [read, read_split, hnone]

/-- Witness for C8 at a concrete unrecognized split name. -/
theorem read_split_unrecognized_witness :
    ("bogus_split" ∉ splitNames) ∧
    read (fun _ => []) none (fun s => (id, s)) (fun _ => [])
        (fun _ => []) false (fun _ => ()) [] (.inl ("bogus_split")) =
      .error (.valueError ("Unrecognized split: " ++ "bogus_split" ++ ".")) :=
  ⟨by decide,
    read_split_unrecognized (fun _ => []) none (fun s => (id, s)) (fun _ => [])
      (fun _ => []) false (fun _ => ()) [] "bogus_split" (by decide)⟩

/-- C9: `_read` on a list of split names yields exactly the
concatenation, in list order, of what `_read` yields for each name
individually; the empty list yields no instances. -/
theorem read_list_concat {Img : Type} (tok : String → List String)
    (answer_vocab : Option (List String))
    (gds : String → (List QuestionRec → List QuestionRec) × String)
    (questions_of : String → List QuestionRec)
    (answers_of : SplitUrls → List (String × List (String × ℕ)))
    (produce_featurized_images : Bool) (featurize : String → Img)
    (images : List (ℕ × String)) :
    (∀ (l : List String) (outs : List (List (VQAInstance Img))),
      List.Forall₂
        (fun s out =>
          read tok answer_vocab gds questions_of answers_of
            produce_featurized_images featurize images (.inl s) = .ok out)
        l outs →
      read tok answer_vocab gds questions_of answers_of
        produce_featurized_images featurize images (.inr l) = .ok outs.flatten) ∧
    read tok answer_vocab gds questions_of answers_of
      produce_featurized_images featurize images (.inr []) = .ok [] := by
  refine ⟨?_, rfl⟩
  intro l outs hall
  induction hall with
  | nil => rfl
  | cons hs hrest ih =>
    simp only [read] at hs ih ⊢
    simp [read_split_list, hs, ih]

/-! ## Image-id normalization in `__init__` (vqav2.py lines 138-153)

`self.images` starts as a map from filenames to full paths; the
constructor re-keys it by the image id extracted with
`re.fullmatch(r".*(\d{12})\.((jpg)|(png))", filename)` and deletes the
`None` key that collects all non-matching filenames.

A full match of that pattern forces the positions: the whole string is
some prefix of characters matched by `.` (anything but a newline),
followed by exactly 12 digits, a dot, and `jpg` or `png`; the captured
group is the 12 characters right before the extension.  `int(...)` of
the captured digits is their decimal value. -/

/-- Decimal value of a digit string, as `int(...)` computes it. -/
def digitsToNat (digits : List Char) : ℕ :=
  digits.foldl (fun acc c => 10 * acc + (c.toNat - 48)) 0

/-- Embedding of `id_from_filename` (lines 143-147). -/
def id_from_filename (filename : String) : Option ℕ :=
  let cs := filename.data
  let n := cs.length
  if 16 ≤ n ∧
      (cs.drop (n - 4) = ".jpg".data ∨ cs.drop (n - 4) = ".png".data) ∧
      (∀ c ∈ (cs.drop (n - 16)).take 12, c.isDigit) ∧
      (∀ c ∈ cs.take (n - 16), c ≠ '\n') then
    some (digitsToNat ((cs.drop (n - 16)).take 12))
  else
    none

/-- The dict comprehension on lines 149-151 followed by
`del self.images[None]` on lines 152-153. -/
def initImages (images : List (String × String)) : List (Option ℕ × String) :=
  let rekeyed :=
    images.foldl (fun m p => dictInsert m (id_from_filename p.1) p.2) []
  rekeyed.filter (fun p => p.1 ≠ none)

theorem mem_dictInsert {α β : Type} [DecidableEq α]
    (m : List (α × β)) (key : α) (val : β) (kv : α × β)
    (h : kv ∈ dictInsert m key val) :
    kv.1 = key ∨ ∃ w, (kv.1, w) ∈ m := by
  induction m with
  | nil =>
    simp only [dictInsert, List.mem_singleton] at h
    subst h
    exact Or.inl rfl
  | cons p rest ih =>
    obtain ⟨k0, v0⟩ := p
    by_cases h0 : k0 = key
    · rw [dictInsert, if_pos h0] at h
      rcases List.mem_cons.mp h with heq | hmem
      · exact Or.inl (by rw [heq]; exact h0)
      · exact Or.inr ⟨kv.2, List.mem_cons_of_mem _ hmem⟩
    · rw [dictInsert, if_neg h0] at h
      rcases List.mem_cons.mp h with heq | hmem
      · exact Or.inr ⟨kv.2, by rw [heq]; simp⟩
      · rcases ih hmem with hk | ⟨w, hw⟩
        · exact Or.inl hk
        · exact Or.inr ⟨w, List.mem_cons_of_mem _ hw⟩

theorem mem_foldl_dictInsert (l : List (String × String))
    (m0 : List (Option ℕ × String)) (kv : Option ℕ × String)
    (h : kv ∈ l.foldl (fun m p => dictInsert m (id_from_filename p.1) p.2) m0) :
    (∃ w, (kv.1, w) ∈ m0) ∨
      ∃ nm path, (nm, path) ∈ l ∧ id_from_filename nm = kv.1 := by
  induction l generalizing m0 with
  | nil => exact Or.inl ⟨kv.2, by simpa using h⟩
  | cons p rest ih =>
    simp only [List.foldl_cons] at h
    rcases ih _ h with ⟨w, hw⟩ | ⟨nm, path, hmem, hid⟩
    · rcases mem_dictInsert _ _ _ _ hw with hk | ⟨w', hw'⟩
      · exact Or.inr ⟨p.1, p.2, by simp, hk.symm⟩
      · exact Or.inl ⟨w', hw'⟩
    · exact Or.inr ⟨nm, path, List.mem_cons_of_mem _ hmem, hid⟩

/-- C10: after the constructor's normalization every key of
`self.images` is `some` of the integer value of the 12-digit group of a
filename fully matching `.*(\d{12})\.((jpg)|(png))`; non-matching
filenames are dropped and `None` is never a key. -/
theorem initImages_keys (images : List (String × String)) :
    ∀ kv ∈ initImages images,
      kv.1 ≠ none ∧
      ∃ nm path, (nm, path) ∈ images ∧ id_from_filename nm = kv.1 := by
  intro kv hkv
  unfold initImages at hkv
  have hfil := List.mem_filter.mp hkv
  refine ⟨by simpa using hfil.2, ?_⟩
  rcases mem_foldl_dictInsert images [] kv hfil.1 with ⟨w, hw⟩ | found
  · simp at hw
  · exact found

/-- Witness for C10: a concrete image list with one matching and one
non-matching filename; the non-matching one leaves no key. -/
theorem initImages_keys_witness :
    ((some 17, "/imgs/COCO_000000000017.jpg") ∈
      initImages
        [("COCO_000000000017.jpg", "/imgs/COCO_000000000017.jpg"),
         ("readme.txt", "/imgs/readme.txt")]) ∧
    ((some 17, "/imgs/COCO_000000000017.jpg") : Option ℕ × String).1 ≠ none ∧
    ∃ nm path,
      (nm, path) ∈
        [("COCO_000000000017.jpg", "/imgs/COCO_000000000017.jpg"),
         ("readme.txt", "/imgs/readme.txt")] ∧
      id_from_filename nm =
        ((some 17, "/imgs/COCO_000000000017.jpg") : Option ℕ × String).1 :=
  ⟨by decide,
    initImages_keys
      [("COCO_000000000017.jpg", "/imgs/COCO_000000000017.jpg"),
       ("readme.txt", "/imgs/readme.txt")]
      (some 17, "/imgs/COCO_000000000017.jpg") (by decide)⟩

end VQA

namespace BeamSearchModel

/-! ## Beam search with beam size 1 versus greedy decoding

The beam-search implementation lives in the external framework
(`allennlp.nn.beam_search`); this repository only exercises it through
`tests/generation/models/simple_seq2seq_test.py`
(`test_greedy_decode_matches_beam_search`).  Following the spec's
description — "a heuristic search procedure over sequence-generation
model outputs, retaining the top-k partial hypotheses at each decoding
step" — the decoder is modelled by a deterministic scoring function
`step : List ℕ → ℕ → ℚ` (`take_step`: the score of appending a token to
a partial sequence), a hypothesis by its token sequence and cumulative
score, and ties are broken towards the earlier candidate, the same
deterministic choice an argmax makes. -/

/-- Index of the best-scoring token among `t0 :: ts`, earliest on ties. -/
def bestOf (f : ℕ → ℚ) (t0 : ℕ) (ts : List ℕ) : ℕ :=
  ts.foldl (fun b t => if f b < f t then t else b) t0

/-- Modelled from the spec: the stepwise argmax of the greedy decoding
loop (`_forward_loop`), over the scores of the `num_tokens` candidate
tokens. -/
def argmaxTok (f : ℕ → ℚ) (num_tokens : ℕ) : ℕ :=
  match List.range num_tokens with
  | [] => 0
  | t :: ts => bestOf f t ts

/-- Best-scoring hypothesis of a candidate list, earliest on ties. -/
def selectBest : List (List ℕ × ℚ) → Option (List ℕ × ℚ)
  | [] => none
  | c :: cs => some (cs.foldl (fun b c' => if b.2 < c'.2 then c' else b) c)

/-- Modelled from the spec: retain the top-k hypotheses of a candidate
list, by repeatedly extracting the best remaining one. -/
def topK : ℕ → List (List ℕ × ℚ) → List (List ℕ × ℚ)
  | 0, _ => []
  | k + 1, cands =>
    match selectBest cands with
    | none => []
    | some b => b :: topK k (cands.erase b)

/-- All one-token extensions of a hypothesis, with cumulative scores. -/
def expandHyp (step : List ℕ → ℕ → ℚ) (num_tokens : ℕ)
    (h : List ℕ × ℚ) : List (List ℕ × ℚ) :=
  (List.range num_tokens).map (fun t => (h.1 ++ [t], h.2 + step h.1 t))

/-- Modelled from the spec: one decoding step of beam search — expand
every hypothesis by every token and retain the top-k results. -/
def beamStep (step : List ℕ → ℕ → ℚ) (num_tokens k : ℕ)
    (hyps : List (List ℕ × ℚ)) : List (List ℕ × ℚ) :=
  topK k ((hyps.map (expandHyp step num_tokens)).flatten)

/-- Modelled from the spec: beam search from the start sequence, for a
fixed number of decoding steps (`allennlp.nn.beam_search.BeamSearch` is
not part of this repository's sources). -/
def beamSearch (step : List ℕ → ℕ → ℚ) (num_tokens k steps : ℕ)
    (start : List ℕ) : List (List ℕ × ℚ) :=
  (beamStep step num_tokens k)^[steps] [(start, 0)]

/-- One greedy step: append the argmax token. -/
def greedyStep (step : List ℕ → ℕ → ℚ) (num_tokens : ℕ)
    (s : List ℕ) : List ℕ :=
  s ++ [argmaxTok (step s) num_tokens]

/-- Modelled from the spec: the model's greedy decoding loop, a
stepwise argmax over the same `take_step` function. -/
def greedyDecode (step : List ℕ → ℕ → ℚ) (num_tokens steps : ℕ)
    (start : List ℕ) : List ℕ :=
  (greedyStep step num_tokens)^[steps] start

theorem bestOf_cons (f : ℕ → ℚ) (t0 t : ℕ) (ts : List ℕ) :
    bestOf f t0 (t :: ts) = bestOf f (if f t0 < f t then t else t0) ts := rfl

theorem foldl_pick_map (h : ℕ → List ℕ × ℚ) (f : ℕ → ℚ) (c : ℚ)
    (hc : ∀ t, (h t).2 = c + f t) (l : List ℕ) (t0 : ℕ) :
    (l.map h).foldl (fun b c' => if b.2 < c'.2 then c' else b) (h t0) =
      h (bestOf f t0 l) := by
  induction l generalizing t0 with
  | nil => rfl
  | cons t ts ih =>
    rw [List.map_cons, List.foldl_cons, bestOf_cons]
    by_cases hft : f t0 < f t
    · have h1 : (h t0).2 < (h t).2 := by
        rw [hc, hc]
        linarith
      rw [if_pos h1, if_pos hft]
      exact ih t
    · have h1 : ¬ (h t0).2 < (h t).2 := by
        rw [hc, hc]
        intro hx
        exact hft (by linarith)
      rw [if_neg h1, if_neg hft]
      exact ih t0

theorem argmaxTok_succ (f : ℕ → ℚ) (m : ℕ) :
    argmaxTok f (m + 1) = bestOf f 0 ((List.range m).map Nat.succ) := by
  unfold argmaxTok
  rw [List.range_succ_eq_map]

theorem selectBest_expand (step : List ℕ → ℕ → ℚ) (m : ℕ)
    (s : List ℕ) (c : ℚ) :
    selectBest (expandHyp step (m + 1) (s, c)) =
      some (s ++ [argmaxTok (step s) (m + 1)],
        c + step s (argmaxTok (step s) (m + 1))) := by
  have hmap : expandHyp step (m + 1) (s, c) =
      (fun t => (s ++ [t], c + step s t)) 0 ::
        ((List.range m).map Nat.succ).map (fun t => (s ++ [t], c + step s t)) := by
    unfold expandHyp
    rw [List.range_succ_eq_map, List.map_cons]
  rw [hmap, selectBest,
    foldl_pick_map (fun t => (s ++ [t], c + step s t)) (step s) c
      (fun t => rfl) ((List.range m).map Nat.succ) 0,
    argmaxTok_succ]

theorem topK_one (cands : List (List ℕ × ℚ)) (b : List ℕ × ℚ)
    (h : selectBest cands = some b) : topK 1 cands = [b] := by
  simp [topK, h]

theorem topK_length (k : ℕ) (cands : List (List ℕ × ℚ)) :
    (topK k cands).length ≤ k := by
  induction k generalizing cands with
  | zero => simp [topK]
  | succ n ih =>
    unfold topK
    cases h : selectBest cands with
    | none => simp
    | some b => simpa using ih (cands.erase b)

theorem beamStep_singleton (step : List ℕ → ℕ → ℚ) (m : ℕ)
    (s : List ℕ) (c : ℚ) :
    beamStep step (m + 1) 1 [(s, c)] =
      [(s ++ [argmaxTok (step s) (m + 1)],
        c + step s (argmaxTok (step s) (m + 1)))] := by
  unfold beamStep
  rw [List.map_cons, List.map_nil, List.flatten_cons, List.flatten_nil,
    List.append_nil]
  exact topK_one _ _ (selectBest_expand step m s c)

theorem beam1_carries_greedy (step : List ℕ → ℕ → ℚ) (m steps : ℕ)
    (start : List ℕ) :
    ∃ c : ℚ, beamSearch step (m + 1) 1 steps start =
      [(greedyDecode step (m + 1) steps start, c)] := by
  induction steps with
  | zero => exact ⟨0, rfl⟩
  | succ k ih =>
    obtain ⟨c, hc⟩ := ih
    refine ⟨c + step (greedyDecode step (m + 1) k start)
      (argmaxTok (step (greedyDecode step (m + 1) k start)) (m + 1)), ?_⟩
    unfold beamSearch greedyDecode at hc ⊢
    rw [Function.iterate_succ_apply', hc, beamStep_singleton,
      Function.iterate_succ_apply']
    rfl

/-- C7: beam search retains at most k hypotheses per decoding step, and
with beam size 1 its predicted token sequence on any input equals the
one produced by the greedy decoding loop, the stepwise argmax over the
same `take_step` scoring function. -/
theorem beam_search_top_k_and_beam1_greedy (step : List ℕ → ℕ → ℚ)
    (num_tokens : ℕ) (hn : 0 < num_tokens) (steps : ℕ) (start : List ℕ) :
    (∀ k hyps, (beamStep step num_tokens k hyps).length ≤ k) ∧
    (beamSearch step num_tokens 1 steps start).map Prod.fst =
      [greedyDecode step num_tokens steps start] := by
  obtain ⟨m, rfl⟩ : ∃ m, num_tokens = m + 1 := ⟨num_tokens - 1, by omega⟩
  refine ⟨fun k hyps => topK_length k _, ?_⟩
  obtain ⟨c, hc⟩ := beam1_carries_greedy step m steps start
  rw [hc]
  rfl

/-- Witness for C7 at a concrete scoring function with two tokens and
two decoding steps. -/
theorem beam_search_beam1_greedy_witness :
    0 < 2 ∧
    ((∀ k hyps,
        (beamStep (fun _ t => if t = 1 then (1 : ℚ) else 0) 2 k hyps).length ≤ k) ∧
      (beamSearch (fun _ t => if t = 1 then (1 : ℚ) else 0) 2 1 2 [0]).map
          Prod.fst =
        [greedyDecode (fun _ t => if t = 1 then (1 : ℚ) else 0) 2 2 [0]]) :=
  ⟨by norm_num,
    beam_search_top_k_and_beam1_greedy (fun _ t => if t = 1 then (1 : ℚ) else 0)
      2 (by norm_num) 2 [0]⟩

end BeamSearchModel
